import Mathlib

/-!
Shallow embedding of `src/webassembly/instance.rs` (the `Instance` runtime of
the wasmer engine): instantiation of tables, linear memories and globals, the
inspection accessors, and the invocation dispatcher `execute_fn`.

Conventions of the embedding:
* Rust panics (`panic!`, failed slice indexing, `expect`, `unwrap_or_else`)
  are modelled by `Option`/explicit panic outcomes: `none` / `.panicked msg`
  means the process aborts.
* `debug_assert!` is compiled in only when the build has debug assertions
  enabled (`cfg!(debug_assertions)`); the embedding threads that build flag
  through as an explicit boolean parameter `da`.
* Machine integers are modelled as `Nat`; the `as u32` casts in
  `instantiate_memories` are modelled as `% 2 ^ 32`.
* Calling into native code cannot be modelled directly; the value a native
  call returns is taken from an uninterpreted `NativeOracle`, and every
  execution result carries the number of native calls performed.
-/

namespace Wasmer

/-- cranelift `ir::Type` of a value. The dispatcher names only the four
numeric kinds `I32`, `I64`, `F32`, `F64`; everything else falls into its
catch-all arm. A few other concrete cranelift types are included so that the
catch-all arm is inhabited. -/
inductive ValueType where
  | I32
  | I64
  | F32
  | F64
  | I8
  | I16
  | B1
deriving DecidableEq

/-- `ir::Type::bytes()`: the byte width of a value type. -/
def ValueType.bytes : ValueType → Nat
  | .I32 => 4
  | .I64 => 8
  | .F32 => 4
  | .F64 => 8
  | .I8 => 1
  | .I16 => 2
  | .B1 => 1

/-- cranelift `ir::AbiParam`: a parameter or return slot of a signature; only
its `value_type` field is read by this core. -/
structure AbiParam where
  value_type : ValueType
deriving DecidableEq

/-- cranelift `ir::Signature`, restricted to the fields this core reads. -/
structure Signature where
  params : List AbiParam
  returns : List AbiParam
deriving DecidableEq

/-- Modelled from the spec: a table declaration of the Module Blueprint
(`module.rs` is not under `src/`); only its declared size is read. -/
structure TableDecl where
  size : Nat
deriving DecidableEq

/-- Modelled from the spec: a memory declaration of the Module Blueprint —
initial page count and optional maximum page count. The spec gives no width
bound for the counts, so they are plain naturals. -/
structure MemoryDecl where
  pages_count : Nat
  maximum : Option Nat
deriving DecidableEq

/-- Modelled from the spec: a global declaration of the Module Blueprint.
It carries a declared initial value; this core never reads it. -/
structure GlobalDecl where
  initVal : Int
deriving DecidableEq

/-- `module::Export`: an export is a (kind, index) pair. -/
inductive Export where
  | Function (index : Nat)
  | Memory (index : Nat)
  | Table (index : Nat)
  | Global (index : Nat)
deriving DecidableEq

/-- `module::TableElements`: a table initializer — target table, optional
global-relative base, constant offset, and the listed function indices. -/
structure TableElements where
  table_index : Nat
  base : Option Nat
  offset : Nat
  elements : List Nat
deriving DecidableEq

/-- `module::DataInitializer`: a data initializer — target memory, optional
global-relative base, constant offset, and the byte payload. -/
structure DataInitializer where
  memory_index : Nat
  base : Option Nat
  offset : Nat
  data : List Nat
deriving DecidableEq

/-- Modelled from the spec: the Module Blueprint (`module.rs` is not under
`src/`). Fields are exactly those `instance.rs` reads: table declarations,
memory declarations, global declarations, the module's table initializers,
the name → export map, the function → signature-index map, the signature
table, and the locality map from module-wide function index to either a
local-definition index (`some`) or "imported" (`none`). -/
structure Module where
  tables : List TableDecl
  memories : List MemoryDecl
  globals : List GlobalDecl
  table_elements : List TableElements
  exports : List (String × Export)
  functions : List Nat
  signatures : List Signature
  funcMap : List (Option Nat)

/-- Modelled from the spec: `Module::defined_func_index` maps a module-wide
function index to `some local_index` for a locally defined function and to
`none` for an imported one (or an index outside the map). -/
def Module.defined_func_index (m : Module) (f : Nat) : Option Nat :=
  (m.funcMap[f]?).bind id

/-- A compiled native code buffer; `addr` is its base address
(`code_buf.as_ptr()`), which is also the function's native entry point. -/
structure CodeBuf where
  addr : Nat
deriving DecidableEq

/-- `compilation::Compilation`: the compiled code buffers, index-aligned to
locally defined functions. -/
structure Compilation where
  functions : List CodeBuf
deriving DecidableEq

/-- Modelled from the spec: the WebAssembly page size used by the Linear
Memory collaborator (`memory.rs` is not under `src/`). -/
def PAGE_SIZE : Nat := 65536

/-- Modelled from the spec: the Linear Memory collaborator (`memory.rs` is
not under `src/`): constructible from (initial pages, optional maximum
pages), exposing a byte view sized to `pages * PAGE_SIZE`. The byte store is
a function from addresses to bytes. -/
structure LinearMemory where
  pages : Nat
  maxPages : Option Nat
  bytes : Nat → Nat

/-- Modelled from the spec: `LinearMemory::new` allocates `initial` pages,
zero-filled. -/
def LinearMemory.new (initial : Nat) (maximum : Option Nat) : LinearMemory :=
  { pages := initial, maxPages := maximum, bytes := fun _ => 0 }

/-- The byte length of the memory's view (`pages * page_size`). -/
def LinearMemory.sizeBytes (m : LinearMemory) : Nat :=
  m.pages * PAGE_SIZE

/-- The `Instance` runtime state: tables (address-sized slots), linear
memories, and the flat globals byte buffer. -/
structure Instance where
  tables : List (List Nat)
  memories : List LinearMemory
  globals : List Nat

/-- `instance::InvokeResult`: the tagged invocation result. Float payloads
are kept as uninterpreted bit patterns. -/
inductive InvokeResult where
  | VOID
  | I32 (v : Int)
  | I64 (v : Int)
  | F32 (bits : Nat)
  | F64 (bits : Nat)
deriving DecidableEq

/-- The observable outcome of `execute_fn`: a successful tagged value
(`Ok`), a recoverable error value (`Err`), or a process abort (`panic!`). -/
inductive ExecOutcome where
  | ok (r : InvokeResult)
  | err (msg : String)
  | panicked (msg : String)
deriving DecidableEq

/-- Whether an outcome is the recoverable `Err` case. -/
def ExecOutcome.isErr : ExecOutcome → Bool
  | .err _ => true
  | _ => false

/-- Whether an outcome is a process abort. -/
def ExecOutcome.isPanic : ExecOutcome → Bool
  | .panicked _ => true
  | _ => false

/-- Result of running `execute_fn`, together with the number of native calls
that were performed. -/
structure ExecResult where
  outcome : ExecOutcome
  nativeCalls : Nat
deriving DecidableEq

/-- Uninterpreted semantics of calling into a native code buffer (the
`transmute`d function pointers): for each entry address, the value the call
returns when reinterpreted at each return shape. -/
structure NativeOracle where
  runI32 : Nat → Int
  runI64 : Nat → Int
  runF32 : Nat → Nat
  runF64 : Nat → Nat

/-! ### Table instantiation (`Instance::instantiate_tables`) -/

/-- Resolution of one listed function index inside a table initializer:
`compilation.functions[module.defined_func_index(func_idx).expect(...)]
  .as_ptr()`. `none` means the process aborts (imported function, or an
index outside the compiled-code table). -/
def resolveFuncAddr (m : Module) (comp : Compilation) (func_idx : Nat) : Option Nat :=
  match m.defined_func_index func_idx with
  | none => none
  | some local_idx => (comp.functions[local_idx]?).map CodeBuf.addr

/-- The element-writing loop of a table initializer: for each listed
function index in order, resolve it and write its entry address at
`offset + position`. `none` means the process aborts mid-loop. -/
def writeTableSlots (m : Module) (comp : Compilation) (tbl : List Nat)
    (offset : Nat) : List Nat → Option (List Nat)
  | [] => some tbl
  | func_idx :: rest =>
    match resolveFuncAddr m comp func_idx with
    | none => none
    | some a => writeTableSlots m comp (tbl.set offset a) (offset + 1) rest

/-- Application of one table initializer: the `debug_assert!` on the base
(active only when `da` is set), the indexing of `self.tables`, the bounds
check of the slice `[offset .. offset + elements.len())`, then the element
loop. -/
def applyTableInit (da : Bool) (m : Module) (comp : Compilation)
    (tables : List (List Nat)) (init : TableElements) : Option (List (List Nat)) :=
  if da ∧ init.base.isSome then none
  else
    match tables[init.table_index]? with
    | none => none
    | some tbl =>
      if init.offset + init.elements.length ≤ tbl.length then
        (writeTableSlots m comp tbl init.offset init.elements).map
          (tables.set init.table_index)
      else none

/-- The initializer loop of `instantiate_tables`, in list order. -/
def applyTableInits (da : Bool) (m : Module) (comp : Compilation)
    (tables : List (List Nat)) : List TableElements → Option (List (List Nat))
  | [] => some tables
  | init :: rest =>
    match applyTableInit da m comp tables init with
    | none => none
    | some tables2 => applyTableInits da m comp tables2 rest

/-- `Instance::instantiate_tables`: allocate one zero-filled slot vector of
the declared size per table, then apply the table initializers in order. -/
def instantiate_tables (da : Bool) (m : Module) (comp : Compilation)
    (table_initializers : List TableElements) : Option (List (List Nat)) :=
  applyTableInits da m comp
    (m.tables.map (fun t => List.replicate t.size 0)) table_initializers

/-! ### Memory instantiation (`Instance::instantiate_memories`) -/

/-- Overwrite of `mem[offset .. offset + data.len())` with `data`
(`copy_from_slice`), as a function on the byte store. -/
def writeBytes (mem : Nat → Nat) (offset : Nat) (data : List Nat) : Nat → Nat :=
  fun a => if offset ≤ a ∧ a < offset + data.length then data.getD (a - offset) 0 else mem a

/-- Application of one data initializer: the `debug_assert!` on the base
(active only when `da` is set), the indexing of `self.memories`, the bounds
check of the slice `[offset .. offset + data.len())`, then the copy. -/
def applyDataInit (da : Bool) (ms : List LinearMemory)
    (init : DataInitializer) : Option (List LinearMemory) :=
  if da ∧ init.base.isSome then none
  else
    match ms[init.memory_index]? with
    | none => none
    | some mem =>
      if init.offset + init.data.length ≤ mem.sizeBytes then
        some (ms.set init.memory_index
          { mem with bytes := writeBytes mem.bytes init.offset init.data })
      else none

/-- The initializer loop of `instantiate_memories`, in list order. -/
def applyDataInits (da : Bool) (ms : List LinearMemory) :
    List DataInitializer → Option (List LinearMemory)
  | [] => some ms
  | init :: rest =>
    match applyDataInit da ms init with
    | none => none
    | some ms2 => applyDataInits da ms2 rest

/-- The effective initial page count of a declared memory:
`if (memory.pages_count as u32) > 0 { memory.pages_count as u32 } else 1`.
The `as u32` cast is `% 2 ^ 32`. -/
def effectivePages (decl : MemoryDecl) : Nat :=
  if decl.pages_count % 2 ^ 32 > 0 then decl.pages_count % 2 ^ 32 else 1

/-- `Instance::instantiate_memories`: construct one Linear Memory per
declared memory — sized to the effective page count, with the declared
maximum cast through `u32` — then apply the data initializers in order. -/
def instantiate_memories (da : Bool) (m : Module)
    (data_initializers : List DataInitializer) : Option (List LinearMemory) :=
  applyDataInits da
    (m.memories.map (fun decl =>
      LinearMemory.new (effectivePages decl) (decl.maximum.map (· % 2 ^ 32))))
    data_initializers

/-! ### Global instantiation and `Instance::new` -/

/-- `Instance::instantiate_globals`: `globals.resize(module.globals.len() * 8, 0)`
on the initially empty buffer. -/
def instantiate_globals (m : Module) : List Nat :=
  List.replicate (m.globals.length * 8) 0

/-- `Instance::new`: instantiate tables, then memories, then globals.
`none` means instantiation aborted the process. -/
def Instance.new (da : Bool) (m : Module) (comp : Compilation)
    (data_initializers : List DataInitializer) : Option Instance :=
  match instantiate_tables da m comp m.table_elements with
  | none => none
  | some ts =>
    match instantiate_memories da m data_initializers with
    | none => none
    | some ms => some { tables := ts, memories := ms, globals := instantiate_globals m }

/-! ### Inspection accessors -/

/-- `Instance::inspect_memory`: index into `self.memories` (panic on a bad
index), then the slice `[address .. address + len)` of the byte view (panic
when out of range). -/
def Instance.inspect_memory (inst : Instance) (memory_index address len : Nat) :
    Option (List Nat) :=
  match inst.memories[memory_index]? with
  | none => none
  | some mem =>
    if address + len ≤ mem.sizeBytes then
      some ((List.range len).map (fun j => mem.bytes (address + j)))
    else none

/-- `Instance::inspect_global`: the slice
`self.globals[global_index * 8 .. global_index * 8 + ty.bytes()]`
(panic when out of range). -/
def Instance.inspect_global (inst : Instance) (global_index : Nat) (ty : ValueType) :
    Option (List Nat) :=
  if global_index * 8 + ty.bytes ≤ inst.globals.length then
    some ((inst.globals.drop (global_index * 8)).take ty.bytes)
  else none

/-! ### Invocation dispatcher (`Instance::execute_fn`) -/

/-- `Instance::execute_fn`: export lookup (panic on an absent name or a
non-function export), resolution to a locally defined function (panic for an
imported one), fetch of the code buffer and the signature (panic on bad
indices), then dispatch on the return arity and single-return type. The
assembly of `mem_base_addrs` / `vmctx` (raw base-address bookkeeping with no
observable effect in this embedding) happens before the dispatch and
performs no native call. -/
def Instance.execute_fn (_inst : Instance) (m : Module) (comp : Compilation)
    (oracle : NativeOracle) (func_name : String) : ExecResult :=
  match m.exports.lookup func_name with
  | some (Export.Function func_index) =>
    match m.defined_func_index func_index with
    | none => { outcome := .panicked "imported start functions not supported yet", nativeCalls := 0 }
    | some local_idx =>
      match comp.functions[local_idx]? with
      | none => { outcome := .panicked "index out of bounds", nativeCalls := 0 }
      | some code_buf =>
        match m.functions[func_index]? with
        | none => { outcome := .panicked "index out of bounds", nativeCalls := 0 }
        | some sig_index =>
          match m.signatures[sig_index]? with
          | none => { outcome := .panicked "index out of bounds", nativeCalls := 0 }
          | some imported_sig =>
            match imported_sig.returns with
            | [] => { outcome := .ok .VOID, nativeCalls := 1 }
            | [ret] =>
              match ret.value_type with
              | .I32 => { outcome := .ok (.I32 (oracle.runI32 code_buf.addr)), nativeCalls := 1 }
              | .I64 => { outcome := .ok (.I64 (oracle.runI64 code_buf.addr)), nativeCalls := 1 }
              | .F32 => { outcome := .ok (.F32 (oracle.runF32 code_buf.addr)), nativeCalls := 1 }
              | .F64 => { outcome := .ok (.F64 (oracle.runF64 code_buf.addr)), nativeCalls := 1 }
              | _ => { outcome := .panicked "Invalid signature", nativeCalls := 0 }
            | _ :: _ :: _ =>
              { outcome := .panicked "Only one-returnf functions are supported for now", nativeCalls := 0 }
  | _ => { outcome := .panicked "No func name", nativeCalls := 0 }

/-! ### Observation helpers -/

/-- A data initializer covers byte `a` of memory `m0` when it targets `m0`
and `a` lies in `[offset, offset + data.len())`. -/
def covers (init : DataInitializer) (m0 a : Nat) : Prop :=
  init.memory_index = m0 ∧ init.offset ≤ a ∧ a < init.offset + init.data.length

instance (init : DataInitializer) (m0 a : Nat) : Decidable (covers init m0 a) := by
  unfold covers; infer_instance

/-- A table initializer covers slot `s` of table `t` when it targets `t`
and `s` lies in `[offset, offset + elements.len())`. -/
def coversT (init : TableElements) (t s : Nat) : Prop :=
  init.table_index = t ∧ init.offset ≤ s ∧ s < init.offset + init.elements.length

instance (init : TableElements) (t s : Nat) : Decidable (coversT init t s) := by
  unfold coversT; infer_instance

/-- The byte at address `a` of memory `m0` in a memory list. -/
def byteAt (ms : List LinearMemory) (m0 a : Nat) : Option Nat :=
  (ms[m0]?).map (fun mem => mem.bytes a)

/-- The page count and declared maximum of memory `k` in a memory list. -/
def memPagesAt (ms : List LinearMemory) (k : Nat) : Option (Nat × Option Nat) :=
  (ms[k]?).map (fun mem => (mem.pages, mem.maxPages))

/-- The content of slot `s` of table `t` in a table list. -/
def slotAt (ts : List (List Nat)) (t s : Nat) : Option Nat :=
  (ts[t]?).bind (fun tbl => tbl[s]?)

/-- The return-type kinds the single-return dispatch arm names explicitly;
everything else falls into its catch-all `panic!` arm. -/
def isNumericRet : ValueType → Bool
  | .I32 => true
  | .I64 => true
  | .F32 => true
  | .F64 => true
  | _ => false

/-! ### Concrete sample inputs used to instantiate the theorems -/

/-- A native oracle that returns zero everywhere. -/
def oracle0 : NativeOracle := ⟨fun _ => 0, fun _ => 0, fun _ => 0, fun _ => 0⟩

/-- Compilation with two code buffers at addresses 100 and 200. -/
def exCompB : Compilation := ⟨[⟨100⟩, ⟨200⟩]⟩

/-- Compilation with one code buffer at address 7. -/
def exCompOne : Compilation := ⟨[⟨7⟩]⟩

/-- Module exporting "f", a local function whose signature has two returns. -/
def exMultiRet : Module :=
  { tables := []
    memories := []
    globals := []
    table_elements := []
    exports := [("f", Export.Function 0)]
    functions := [0]
    signatures := [⟨[], [⟨.I32⟩, ⟨.I32⟩]⟩]
    funcMap := [some 0] }

/-- Module exporting "g", a local function with one non-numeric return. -/
def exNonNumRet : Module :=
  { tables := []
    memories := []
    globals := []
    table_elements := []
    exports := [("g", Export.Function 0)]
    functions := [0]
    signatures := [⟨[], [⟨.B1⟩]⟩]
    funcMap := [some 0] }

/-- Module with a table initializer whose base is global-relative. -/
def exBaseTbl : Module :=
  { tables := [⟨2⟩]
    memories := []
    globals := []
    table_elements := [⟨0, some 0, 0, [0]⟩]
    exports := []
    functions := []
    signatures := []
    funcMap := [some 0] }

/-- Module declaring a single one-page memory and nothing else. -/
def exMemOne : Module :=
  { tables := []
    memories := [⟨1, none⟩]
    globals := []
    table_elements := []
    exports := []
    functions := []
    signatures := []
    funcMap := [] }

/-- Module declaring a zero-page memory with maximum 5. -/
def exMemZero : Module :=
  { tables := []
    memories := [⟨0, some 5⟩]
    globals := []
    table_elements := []
    exports := []
    functions := []
    signatures := []
    funcMap := [] }

/-- Module declaring a memory of 2^32 pages (a count whose `u32` cast
truncates to zero). -/
def exMemHuge : Module :=
  { tables := []
    memories := [⟨2 ^ 32, none⟩]
    globals := []
    table_elements := []
    exports := []
    functions := []
    signatures := []
    funcMap := [] }

/-- Module of spec Scenario B: one table of size 4 and one initializer
writing functions 0 and 1 at offset 1. -/
def exTableB : Module :=
  { tables := [⟨4⟩]
    memories := []
    globals := []
    table_elements := [⟨0, none, 1, [0, 1]⟩]
    exports := []
    functions := []
    signatures := []
    funcMap := [some 0, some 1] }

/-- Module with a size-1 table and two table initializers both writing
slot 0 (the second overwrites the first). -/
def exTableOverlap : Module :=
  { tables := [⟨1⟩]
    memories := []
    globals := []
    table_elements := [⟨0, none, 0, [0]⟩, ⟨0, none, 0, [1]⟩]
    exports := []
    functions := []
    signatures := []
    funcMap := [some 0, some 1] }

/-- Module of spec Scenario A: a single zero-page memory. -/
def exMemZeroNoMax : Module :=
  { tables := []
    memories := [⟨0, none⟩]
    globals := []
    table_elements := []
    exports := []
    functions := []
    signatures := []
    funcMap := [] }

/-- Module declaring two globals with nonzero declared initial values. -/
def exGlobals2 : Module :=
  { tables := []
    memories := []
    globals := [⟨5⟩, ⟨-3⟩]
    table_elements := []
    exports := []
    functions := []
    signatures := []
    funcMap := [] }

/-- Module whose only export "m" is a memory export. -/
def exExpMem : Module :=
  { tables := []
    memories := []
    globals := []
    table_elements := []
    exports := [("m", Export.Memory 0)]
    functions := []
    signatures := []
    funcMap := [] }

/-! ### Lemmas about data-initializer application -/

theorem applyDataInit_eq_some {da : Bool} {ms : List LinearMemory}
    {init : DataInitializer} {ms2 : List LinearMemory}
    (h : applyDataInit da ms init = some ms2) :
    ∃ mem, ms[init.memory_index]? = some mem ∧
      init.offset + init.data.length ≤ mem.sizeBytes ∧
      ms2 = ms.set init.memory_index
        { mem with bytes := writeBytes mem.bytes init.offset init.data } := by
  unfold applyDataInit at h
  split at h
  · exact absurd h (by simp)
  · split at h
    next hnone => exact absurd h (by simp)
    next mem hmem =>
      split at h
      next hle => exact ⟨mem, hmem, hle, (Option.some.inj h).symm⟩
      next => exact absurd h (by simp)

theorem applyDataInit_pagesAt {da ms init ms2}
    (h : applyDataInit da ms init = some ms2) (k : Nat) :
    memPagesAt ms2 k = memPagesAt ms k := by
  obtain ⟨mem, hmem, _, rfl⟩ := applyDataInit_eq_some h
  have hlt : init.memory_index < ms.length := (List.getElem?_eq_some.mp hmem).1
  unfold memPagesAt
  by_cases hk : init.memory_index = k
  · subst hk
    rw [List.getElem?_set_self hlt, hmem]
    rfl
  · rw [List.getElem?_set_ne hk]

theorem applyDataInit_length {da ms init ms2}
    (h : applyDataInit da ms init = some ms2) : ms2.length = ms.length := by
  obtain ⟨mem, _, _, rfl⟩ := applyDataInit_eq_some h
  exact List.length_set ..

theorem applyDataInit_byteAt_of_not_covers {da ms init ms2 m0 a}
    (h : applyDataInit da ms init = some ms2) (hnc : ¬ covers init m0 a) :
    byteAt ms2 m0 a = byteAt ms m0 a := by
  obtain ⟨mem, hmem, _, rfl⟩ := applyDataInit_eq_some h
  have hlt : init.memory_index < ms.length := (List.getElem?_eq_some.mp hmem).1
  unfold byteAt
  by_cases hk : init.memory_index = m0
  · subst hk
    rw [List.getElem?_set_self hlt, hmem]
    simp only [Option.map_some']
    have hrange : ¬ (init.offset ≤ a ∧ a < init.offset + init.data.length) := by
      intro hr
      exact hnc ⟨rfl, hr.1, hr.2⟩
    unfold writeBytes
    rw [if_neg hrange]
  · rw [List.getElem?_set_ne hk]

theorem applyDataInit_byteAt_of_covers {da ms init ms2 a}
    (h : applyDataInit da ms init = some ms2) (hc : covers init init.memory_index a) :
    byteAt ms2 init.memory_index a = some (init.data.getD (a - init.offset) 0) := by
  obtain ⟨mem, hmem, _, rfl⟩ := applyDataInit_eq_some h
  have hlt : init.memory_index < ms.length := (List.getElem?_eq_some.mp hmem).1
  unfold byteAt
  rw [List.getElem?_set_self hlt]
  simp only [Option.map_some']
  unfold writeBytes
  rw [if_pos ⟨hc.2.1, hc.2.2⟩]

theorem applyDataInits_append {da : Bool} {ms : List LinearMemory}
    (l1 l2 : List DataInitializer) :
    applyDataInits da ms (l1 ++ l2) =
      (applyDataInits da ms l1).bind (fun msx => applyDataInits da msx l2) := by
  induction l1 generalizing ms with
  | nil => rfl
  | cons i rest ih =>
    show (match applyDataInit da ms i with
          | none => none
          | some msx => applyDataInits da msx (rest ++ l2)) =
        (match applyDataInit da ms i with
          | none => none
          | some msx => applyDataInits da msx rest).bind
          (fun msx => applyDataInits da msx l2)
    cases h : applyDataInit da ms i with
    | none => rfl
    | some msx => exact ih

theorem applyDataInits_pagesAt {da : Bool} {inits : List DataInitializer}
    {ms ms2 : List LinearMemory}
    (h : applyDataInits da ms inits = some ms2) (k : Nat) :
    memPagesAt ms2 k = memPagesAt ms k := by
  induction inits generalizing ms with
  | nil => cases Option.some.inj h; rfl
  | cons i rest ih =>
    unfold applyDataInits at h
    cases hstep : applyDataInit da ms i with
    | none => rw [hstep] at h; exact absurd h (by simp)
    | some msx =>
      rw [hstep] at h
      exact (ih h).trans (applyDataInit_pagesAt hstep k)

theorem applyDataInits_byteAt_of_not_covers {da : Bool} {inits : List DataInitializer}
    {ms ms2 : List LinearMemory} {m0 a : Nat}
    (h : applyDataInits da ms inits = some ms2)
    (hnc : ∀ init ∈ inits, ¬ covers init m0 a) :
    byteAt ms2 m0 a = byteAt ms m0 a := by
  induction inits generalizing ms with
  | nil => cases Option.some.inj h; rfl
  | cons i rest ih =>
    unfold applyDataInits at h
    cases hstep : applyDataInit da ms i with
    | none => rw [hstep] at h; exact absurd h (by simp)
    | some msx =>
      rw [hstep] at h
      have h1 := applyDataInit_byteAt_of_not_covers hstep (hnc i (by simp))
      have h2 := ih h (fun init hmem => hnc init (by simp [hmem]))
      exact h2.trans h1

theorem applyDataInits_singleton_eq {da : Bool} {ms ms1 : List LinearMemory}
    {init : DataInitializer}
    (h : applyDataInits da ms [init] = some ms1) :
    applyDataInit da ms init = some ms1 := by
  unfold applyDataInits at h
  cases hstep : applyDataInit da ms init with
  | none => rw [hstep] at h; exact absurd h (by simp)
  | some msx =>
    rw [hstep] at h
    cases Option.some.inj h
    rfl

/-- Splitting a successful data-initializer run at position `j`: the state
before initializer `j`, the state right after it, and the run of the
remaining initializers. -/
theorem applyDataInits_split {da : Bool} {inits : List DataInitializer}
    {ms ms2 : List LinearMemory} {j : Nat} {init : DataInitializer}
    (h : applyDataInits da ms inits = some ms2)
    (hj : inits[j]? = some init) :
    ∃ ms0 ms1, applyDataInits da ms (inits.take j) = some ms0 ∧
      applyDataInit da ms0 init = some ms1 ∧
      applyDataInits da ms1 (inits.drop (j + 1)) = some ms2 := by
  have hsplit : inits = inits.take (j + 1) ++ inits.drop (j + 1) :=
    (List.take_append_drop _ _).symm
  have htake : inits.take (j + 1) = inits.take j ++ [init] := by
    rw [List.take_succ, hj]
    rfl
  rw [hsplit, applyDataInits_append] at h
  obtain ⟨ms1, h1, h2⟩ := Option.bind_eq_some.mp h
  rw [htake, applyDataInits_append] at h1
  obtain ⟨ms0, h0, hstep⟩ := Option.bind_eq_some.mp h1
  exact ⟨ms0, ms1, h0, applyDataInits_singleton_eq hstep, h2⟩

/-- The last-writer property of a data-initializer run: the byte observed at
a covered address is the byte of initializer `j` whenever no initializer
after `j` also covers that address. -/
theorem applyDataInits_lastWriter {da : Bool} {inits : List DataInitializer}
    {ms ms2 : List LinearMemory} {j : Nat} {init : DataInitializer} {a : Nat}
    (h : applyDataInits da ms inits = some ms2)
    (hj : inits[j]? = some init)
    (hc : covers init init.memory_index a)
    (hafter : ∀ init2 ∈ inits.drop (j + 1), ¬ covers init2 init.memory_index a) :
    byteAt ms2 init.memory_index a = some (init.data.getD (a - init.offset) 0) := by
  obtain ⟨ms0, ms1, _, hstep, hrest⟩ := applyDataInits_split h hj
  have hcov := applyDataInit_byteAt_of_covers hstep hc
  have hpres := applyDataInits_byteAt_of_not_covers hrest hafter
  exact hpres.trans hcov

/-- A successful data-initializer run keeps initializer `j` in bounds of its
target memory as observed in the final state. -/
theorem applyDataInits_inbounds {da : Bool} {inits : List DataInitializer}
    {ms ms2 : List LinearMemory} {j : Nat} {init : DataInitializer}
    (h : applyDataInits da ms inits = some ms2)
    (hj : inits[j]? = some init) :
    ∃ mem2, ms2[init.memory_index]? = some mem2 ∧
      init.offset + init.data.length ≤ mem2.sizeBytes := by
  obtain ⟨ms0, ms1, h0, hstep, hrest⟩ := applyDataInits_split h hj
  obtain ⟨mem, hmem, hle, rfl⟩ := applyDataInit_eq_some hstep
  have hpages : memPagesAt ms2 init.memory_index = memPagesAt ms0 init.memory_index := by
    rw [applyDataInits_pagesAt hrest, applyDataInit_pagesAt hstep]
  rw [show memPagesAt ms0 init.memory_index = some (mem.pages, mem.maxPages) by
    unfold memPagesAt; rw [hmem]; rfl] at hpages
  obtain ⟨mem2, hmem2, hfields⟩ := Option.map_eq_some'.mp hpages
  refine ⟨mem2, hmem2, ?_⟩
  have : mem2.pages = mem.pages := congrArg Prod.fst hfields
  unfold LinearMemory.sizeBytes at hle ⊢
  rw [this]
  exact hle

/-! ### Lemmas about table-initializer application -/

theorem writeTableSlots_length {m : Module} {c : Compilation} {es : List Nat}
    {tbl : List Nat} {off : Nat} {tbl2 : List Nat}
    (h : writeTableSlots m c tbl off es = some tbl2) : tbl2.length = tbl.length := by
  induction es generalizing tbl off with
  | nil => cases Option.some.inj h; rfl
  | cons f rest ih =>
    unfold writeTableSlots at h
    cases hr : resolveFuncAddr m c f with
    | none => rw [hr] at h; exact absurd h (by simp)
    | some a =>
      rw [hr] at h
      exact (ih h).trans (List.length_set ..)

theorem writeTableSlots_untouched {m : Module} {c : Compilation} {es : List Nat}
    {tbl : List Nat} {off : Nat} {tbl2 : List Nat}
    (h : writeTableSlots m c tbl off es = some tbl2) (s : Nat)
    (hs : s < off ∨ off + es.length ≤ s) : tbl2[s]? = tbl[s]? := by
  induction es generalizing tbl off with
  | nil => cases Option.some.inj h; rfl
  | cons f rest ih =>
    simp only [List.length_cons] at hs
    unfold writeTableSlots at h
    cases hr : resolveFuncAddr m c f with
    | none => rw [hr] at h; exact absurd h (by simp)
    | some a =>
      rw [hr] at h
      have hs2 : s < off + 1 ∨ (off + 1) + rest.length ≤ s := by omega
      have hne : off ≠ s := by omega
      rw [ih h hs2, List.getElem?_set_ne hne]

theorem writeTableSlots_written {m : Module} {c : Compilation} {es : List Nat}
    {tbl : List Nat} {off : Nat} {tbl2 : List Nat}
    (h : writeTableSlots m c tbl off es = some tbl2)
    (hb : off + es.length ≤ tbl.length) {p f : Nat} (hp : es[p]? = some f) :
    tbl2[off + p]? = resolveFuncAddr m c f := by
  induction es generalizing tbl off p with
  | nil => exact absurd hp (by simp)
  | cons g rest ih =>
    simp only [List.length_cons] at hb
    unfold writeTableSlots at h
    cases hr : resolveFuncAddr m c g with
    | none => rw [hr] at h; exact absurd h (by simp)
    | some a =>
      rw [hr] at h
      cases p with
      | zero =>
        have hgf : g = f := by simpa using hp
        subst hgf
        have hu := writeTableSlots_untouched h off (Or.inl (Nat.lt_succ_self off))
        rw [Nat.add_zero, hu, List.getElem?_set_self (by omega), hr]
      | succ q =>
        have hp2 : rest[q]? = some f := by simpa using hp
        have hb2 : (off + 1) + rest.length ≤ (tbl.set off a).length := by
          rw [List.length_set]; omega
        have hq := ih h hb2 hp2
        rw [show off + (q + 1) = (off + 1) + q by omega]
        exact hq

theorem applyTableInit_eq_some {da : Bool} {m : Module} {c : Compilation}
    {ts : List (List Nat)} {init : TableElements} {ts2 : List (List Nat)}
    (h : applyTableInit da m c ts init = some ts2) :
    ∃ tbl tbl2, ts[init.table_index]? = some tbl ∧
      init.offset + init.elements.length ≤ tbl.length ∧
      writeTableSlots m c tbl init.offset init.elements = some tbl2 ∧
      ts2 = ts.set init.table_index tbl2 := by
  unfold applyTableInit at h
  split at h
  · exact absurd h (by simp)
  · split at h
    next => exact absurd h (by simp)
    next tbl htbl =>
      split at h
      next hle =>
        obtain ⟨tbl2, hw, hset⟩ := Option.map_eq_some'.mp h
        exact ⟨tbl, tbl2, htbl, hle, hw, hset.symm⟩
      next => exact absurd h (by simp)

theorem applyTableInit_lenAt {da m c ts init ts2}
    (h : applyTableInit da m c ts init = some ts2) (t : Nat) :
    (ts2[t]?).map List.length = (ts[t]?).map List.length := by
  obtain ⟨tbl, tbl2, htbl, _, hw, rfl⟩ := applyTableInit_eq_some h
  have hlt : init.table_index < ts.length := (List.getElem?_eq_some.mp htbl).1
  by_cases ht : init.table_index = t
  · subst ht
    rw [List.getElem?_set_self hlt, htbl]
    simp only [Option.map_some']
    rw [writeTableSlots_length hw]
  · rw [List.getElem?_set_ne ht]

theorem applyTableInit_slotAt_of_not_covers {da m c ts init ts2} {t s : Nat}
    (h : applyTableInit da m c ts init = some ts2) (hnc : ¬ coversT init t s) :
    slotAt ts2 t s = slotAt ts t s := by
  obtain ⟨tbl, tbl2, htbl, _, hw, rfl⟩ := applyTableInit_eq_some h
  have hlt : init.table_index < ts.length := (List.getElem?_eq_some.mp htbl).1
  unfold slotAt
  by_cases ht : init.table_index = t
  · subst ht
    rw [List.getElem?_set_self hlt, htbl]
    simp only [Option.some_bind]
    have hrange : s < init.offset ∨ init.offset + init.elements.length ≤ s := by
      by_contra hcon
      push_neg at hcon
      exact hnc ⟨rfl, hcon.1, hcon.2⟩
    exact writeTableSlots_untouched hw s hrange
  · rw [List.getElem?_set_ne ht]

theorem applyTableInit_slotAt_of_covers {da m c ts init ts2} {p f : Nat}
    (h : applyTableInit da m c ts init = some ts2)
    (hp : init.elements[p]? = some f) :
    slotAt ts2 init.table_index (init.offset + p) = resolveFuncAddr m c f := by
  obtain ⟨tbl, tbl2, htbl, hle, hw, rfl⟩ := applyTableInit_eq_some h
  have hlt : init.table_index < ts.length := (List.getElem?_eq_some.mp htbl).1
  unfold slotAt
  rw [List.getElem?_set_self hlt]
  simp only [Option.some_bind]
  exact writeTableSlots_written hw hle hp

theorem applyTableInits_append {da : Bool} {m : Module} {c : Compilation}
    {ts : List (List Nat)} (l1 l2 : List TableElements) :
    applyTableInits da m c ts (l1 ++ l2) =
      (applyTableInits da m c ts l1).bind (fun tsx => applyTableInits da m c tsx l2) := by
  induction l1 generalizing ts with
  | nil => rfl
  | cons i rest ih =>
    show (match applyTableInit da m c ts i with
          | none => none
          | some tsx => applyTableInits da m c tsx (rest ++ l2)) =
        (match applyTableInit da m c ts i with
          | none => none
          | some tsx => applyTableInits da m c tsx rest).bind
          (fun tsx => applyTableInits da m c tsx l2)
    cases h : applyTableInit da m c ts i with
    | none => rfl
    | some tsx => exact ih

theorem applyTableInits_lenAt {da m c} {inits : List TableElements}
    {ts ts2 : List (List Nat)}
    (h : applyTableInits da m c ts inits = some ts2) (t : Nat) :
    (ts2[t]?).map List.length = (ts[t]?).map List.length := by
  induction inits generalizing ts with
  | nil => cases Option.some.inj h; rfl
  | cons i rest ih =>
    unfold applyTableInits at h
    cases hstep : applyTableInit da m c ts i with
    | none => rw [hstep] at h; exact absurd h (by simp)
    | some tsx =>
      rw [hstep] at h
      exact (ih h).trans (applyTableInit_lenAt hstep t)

theorem applyTableInits_slotAt_of_not_covers {da m c} {inits : List TableElements}
    {ts ts2 : List (List Nat)} {t s : Nat}
    (h : applyTableInits da m c ts inits = some ts2)
    (hnc : ∀ init ∈ inits, ¬ coversT init t s) :
    slotAt ts2 t s = slotAt ts t s := by
  induction inits generalizing ts with
  | nil => cases Option.some.inj h; rfl
  | cons i rest ih =>
    unfold applyTableInits at h
    cases hstep : applyTableInit da m c ts i with
    | none => rw [hstep] at h; exact absurd h (by simp)
    | some tsx =>
      rw [hstep] at h
      have h1 := applyTableInit_slotAt_of_not_covers hstep (hnc i (by simp))
      have h2 := ih h (fun init hmem => hnc init (by simp [hmem]))
      exact h2.trans h1

theorem applyTableInits_singleton_eq {da m c} {ts ts1 : List (List Nat)}
    {init : TableElements}
    (h : applyTableInits da m c ts [init] = some ts1) :
    applyTableInit da m c ts init = some ts1 := by
  unfold applyTableInits at h
  cases hstep : applyTableInit da m c ts init with
  | none => rw [hstep] at h; exact absurd h (by simp)
  | some tsx =>
    rw [hstep] at h
    cases Option.some.inj h
    rfl

/-- Splitting a successful table-initializer run at position `j`. -/
theorem applyTableInits_split {da m c} {inits : List TableElements}
    {ts ts2 : List (List Nat)} {j : Nat} {init : TableElements}
    (h : applyTableInits da m c ts inits = some ts2)
    (hj : inits[j]? = some init) :
    ∃ ts0 ts1, applyTableInits da m c ts (inits.take j) = some ts0 ∧
      applyTableInit da m c ts0 init = some ts1 ∧
      applyTableInits da m c ts1 (inits.drop (j + 1)) = some ts2 := by
  have hsplit : inits = inits.take (j + 1) ++ inits.drop (j + 1) :=
    (List.take_append_drop _ _).symm
  have htake : inits.take (j + 1) = inits.take j ++ [init] := by
    rw [List.take_succ, hj]
    rfl
  rw [hsplit, applyTableInits_append] at h
  obtain ⟨ts1, h1, h2⟩ := Option.bind_eq_some.mp h
  rw [htake, applyTableInits_append] at h1
  obtain ⟨ts0, h0, hstep⟩ := Option.bind_eq_some.mp h1
  exact ⟨ts0, ts1, h0, applyTableInits_singleton_eq hstep, h2⟩

/-- The last-writer property of a table-initializer run: a covered slot
holds the entry address resolved for initializer `j`'s element whenever no
initializer after `j` also covers that slot. -/
theorem applyTableInits_lastWriter {da m c} {inits : List TableElements}
    {ts ts2 : List (List Nat)} {j : Nat} {init : TableElements} {p f : Nat}
    (h : applyTableInits da m c ts inits = some ts2)
    (hj : inits[j]? = some init)
    (hp : init.elements[p]? = some f)
    (hafter : ∀ init2 ∈ inits.drop (j + 1),
      ¬ coversT init2 init.table_index (init.offset + p)) :
    slotAt ts2 init.table_index (init.offset + p) = resolveFuncAddr m c f := by
  obtain ⟨ts0, ts1, _, hstep, hrest⟩ := applyTableInits_split h hj
  have hcov := applyTableInit_slotAt_of_covers hstep hp
  have hpres := applyTableInits_slotAt_of_not_covers hrest hafter
  exact hpres.trans hcov

/-- A slot of the freshly allocated (all-zero) table list. -/
theorem slotAt_alloc {m : Module} {t s : Nat} {decl : TableDecl}
    (hd : m.tables[t]? = some decl) (hs : s < decl.size) :
    slotAt (m.tables.map (fun d => List.replicate d.size 0)) t s = some 0 := by
  unfold slotAt
  rw [List.getElem?_map, hd]
  simp only [Option.map_some', Option.some_bind]
  exact List.getElem?_replicate_of_lt hs

/-! ### Debug-assertion aborts on global-relative bases -/

theorem applyTableInits_base_some_none {m : Module} {c : Compilation}
    {ts : List (List Nat)} {inits : List TableElements}
    (h : ∃ init ∈ inits, init.base.isSome = true) :
    applyTableInits true m c ts inits = none := by
  induction inits generalizing ts with
  | nil =>
    obtain ⟨init, hmem, _⟩ := h
    exact absurd hmem (by simp)
  | cons i rest ih =>
    obtain ⟨init, hmem, hbase⟩ := h
    show (match applyTableInit true m c ts i with
          | none => none
          | some tsx => applyTableInits true m c tsx rest) = none
    rcases List.mem_cons.mp hmem with heq | hmem2
    · subst heq
      have hstep : applyTableInit true m c ts init = none := by
        unfold applyTableInit
        rw [if_pos ⟨rfl, hbase⟩]
      rw [hstep]
    · cases hstep : applyTableInit true m c ts i with
      | none => rfl
      | some tsx => exact ih ⟨init, hmem2, hbase⟩

theorem applyDataInits_base_some_none {ms : List LinearMemory}
    {inits : List DataInitializer}
    (h : ∃ init ∈ inits, init.base.isSome = true) :
    applyDataInits true ms inits = none := by
  induction inits generalizing ms with
  | nil =>
    obtain ⟨init, hmem, _⟩ := h
    exact absurd hmem (by simp)
  | cons i rest ih =>
    obtain ⟨init, hmem, hbase⟩ := h
    show (match applyDataInit true ms i with
          | none => none
          | some msx => applyDataInits true msx rest) = none
    rcases List.mem_cons.mp hmem with heq | hmem2
    · subst heq
      have hstep : applyDataInit true ms init = none := by
        unfold applyDataInit
        rw [if_pos ⟨rfl, hbase⟩]
      rw [hstep]
    · cases hstep : applyDataInit true ms i with
      | none => rfl
      | some msx => exact ih ⟨init, hmem2, hbase⟩

/-! ### Decomposition of `Instance.new` -/

theorem Instance.new_eq_some {da : Bool} {m : Module} {c : Compilation}
    {di : List DataInitializer} {inst : Instance}
    (h : Instance.new da m c di = some inst) :
    instantiate_tables da m c m.table_elements = some inst.tables ∧
    instantiate_memories da m di = some inst.memories ∧
    inst.globals = instantiate_globals m := by
  unfold Instance.new at h
  split at h
  · exact absurd h (by simp)
  next ts hts =>
    split at h
    · exact absurd h (by simp)
    next ms hms =>
      cases Option.some.inj h
      exact ⟨hts, hms, rfl⟩

/-! ### Claim theorems -/

/-- C6: for every blueprint, immediately after `Instance` construction the
globals buffer has length exactly `8 * global_count` and every byte of it is
zero, regardless of any declared initial values for the globals. -/
theorem c6_globals_all_zero (da : Bool) (m : Module) (c : Compilation)
    (di : List DataInitializer) (inst : Instance)
    (h : Instance.new da m c di = some inst) :
    inst.globals.length = 8 * m.globals.length ∧ ∀ b ∈ inst.globals, b = 0 := by
  have hg := (Instance.new_eq_some h).2.2
  rw [hg]
  unfold instantiate_globals
  constructor
  · rw [List.length_replicate]
    omega
  · intro b hb
    exact List.eq_of_mem_replicate hb

/-- Witness for C6 at a module with two globals whose declared initial
values are nonzero. -/
theorem c6_globals_all_zero_witness :
    (Instance.mk [] [] (List.replicate 16 0)).globals.length = 8 * exGlobals2.globals.length ∧
    ∀ b ∈ (Instance.mk [] [] (List.replicate 16 0)).globals, b = 0 :=
  c6_globals_all_zero true exGlobals2 ⟨[]⟩ [] ⟨[], [], List.replicate 16 0⟩ rfl

/-- C7: for every global index `i` and type `ty` whose slice lies within the
globals buffer, `inspect_global i ty` returns a view of exactly `ty.bytes`
bytes starting at byte offset `i * 8` of the globals buffer. -/
theorem c7_read_global_view (inst : Instance) (i : Nat) (ty : ValueType)
    (h : i * 8 + ty.bytes ≤ inst.globals.length) :
    ∃ l, inst.inspect_global i ty = some l ∧ l.length = ty.bytes ∧
      ∀ j, j < ty.bytes → l[j]? = inst.globals[i * 8 + j]? := by
  refine ⟨(inst.globals.drop (i * 8)).take ty.bytes, ?_, ?_, ?_⟩
  · unfold Instance.inspect_global
    rw [if_pos h]
  · rw [List.length_take, List.length_drop]
    omega
  · intro j hj
    rw [List.getElem?_take_of_lt hj, List.getElem?_drop]

/-- Witness for C7: reading global 1 as a 32-bit value out of a 16-byte
globals buffer. -/
theorem c7_read_global_view_witness :
    ∃ l, (Instance.mk [] [] (List.replicate 16 0)).inspect_global 1 .I32 = some l ∧
      l.length = ValueType.bytes .I32 ∧
      ∀ j, j < ValueType.bytes .I32 →
        l[j]? = (Instance.mk [] [] (List.replicate 16 0)).globals[1 * 8 + j]? :=
  c7_read_global_view ⟨[], [], List.replicate 16 0⟩ 1 .I32 (by decide)

/-- C10: for every global index `i` and type `ty` whose slice exceeds the
globals buffer length `8 * global_count`, `inspect_global i ty` faults
fatally (panics on out-of-range slicing) rather than returning a shortened
or padded view. -/
theorem c10_read_global_oob_panics (da : Bool) (m : Module) (c : Compilation)
    (di : List DataInitializer) (inst : Instance) (i : Nat) (ty : ValueType)
    (h : Instance.new da m c di = some inst)
    (hoob : 8 * m.globals.length < i * 8 + ty.bytes) :
    inst.inspect_global i ty = none := by
  have hg := (Instance.new_eq_some h).2.2
  unfold Instance.inspect_global
  rw [if_neg]
  rw [hg]
  unfold instantiate_globals
  rw [List.length_replicate]
  omega

/-- Witness for C10: reading global 2 as a 64-bit value out of a 16-byte
globals buffer panics. -/
theorem c10_read_global_oob_panics_witness :
    (Instance.mk [] [] (List.replicate 16 0)).inspect_global 2 .I64 = none :=
  c10_read_global_oob_panics true exGlobals2 ⟨[]⟩ [] ⟨[], [], List.replicate 16 0⟩ 2 .I64
    rfl (by decide)

/-- C8: for every export name that is absent from the export table, resolves
to a non-function export kind, or resolves to an imported function,
`execute_fn` faults fatally (panics) rather than returning its recoverable
error result. -/
theorem c8_execute_fatal_lookup (inst : Instance) (m : Module) (c : Compilation)
    (oracle : NativeOracle) (name : String)
    (h : m.exports.lookup name = none ∨
      (∃ i, m.exports.lookup name = some (Export.Memory i)) ∨
      (∃ i, m.exports.lookup name = some (Export.Table i)) ∨
      (∃ i, m.exports.lookup name = some (Export.Global i)) ∨
      (∃ fi, m.exports.lookup name = some (Export.Function fi) ∧
        m.defined_func_index fi = none)) :
    ∃ msg, inst.execute_fn m c oracle name = ⟨.panicked msg, 0⟩ := by
  unfold Instance.execute_fn
  rcases h with h | ⟨i, h⟩ | ⟨i, h⟩ | ⟨i, h⟩ | ⟨fi, h, hdf⟩
  · simp only [h]
    exact ⟨"No func name", rfl⟩
  · simp only [h]
    exact ⟨"No func name", rfl⟩
  · simp only [h]
    exact ⟨"No func name", rfl⟩
  · simp only [h]
    exact ⟨"No func name", rfl⟩
  · simp only [h, hdf]
    exact ⟨"imported start functions not supported yet", rfl⟩

/-- Witness for C8: invoking an absent export name panics. -/
theorem c8_execute_fatal_lookup_witness :
    ∃ msg, (Instance.mk [] [] []).execute_fn exExpMem exCompOne oracle0 "f" =
      ⟨.panicked msg, 0⟩ :=
  c8_execute_fatal_lookup ⟨[], [], []⟩ exExpMem exCompOne oracle0 "f" (Or.inl rfl)

/-- C3 (amended): for every declared memory, the Linear Memory constructed
during instantiation has effective initial page count
`max(declared_pages mod 2^32, 1)` — the source casts the declared count
through `u32` — and the declared optional maximum is passed through the same
`u32` cast. For declared counts below `2^32` this is `max(declared_pages, 1)`
with the maximum unchanged. -/
theorem c3_memory_pages (da : Bool) (m : Module) (c : Compilation)
    (di : List DataInitializer) (inst : Instance) (k : Nat) (decl : MemoryDecl)
    (h : Instance.new da m c di = some inst)
    (hk : m.memories[k]? = some decl) :
    ∃ lm, inst.memories[k]? = some lm ∧
      lm.pages = Nat.max (decl.pages_count % 2 ^ 32) 1 ∧
      lm.maxPages = decl.maximum.map (· % 2 ^ 32) := by
  have hm := (Instance.new_eq_some h).2.1
  unfold instantiate_memories at hm
  have hpages := applyDataInits_pagesAt hm k
  have halloc : memPagesAt
      (m.memories.map (fun d => LinearMemory.new (effectivePages d) (d.maximum.map (· % 2 ^ 32)))) k =
      some (effectivePages decl, decl.maximum.map (· % 2 ^ 32)) := by
    unfold memPagesAt
    rw [List.getElem?_map, hk]
    rfl
  rw [halloc] at hpages
  obtain ⟨lm, hlm, hfields⟩ := Option.map_eq_some'.mp hpages
  refine ⟨lm, hlm, ?_, ?_⟩
  · have hp : lm.pages = effectivePages decl := congrArg Prod.fst hfields
    rw [hp]
    unfold effectivePages
    rcases Nat.eq_zero_or_pos (decl.pages_count % 2 ^ 32) with h0 | hpos
    · rw [h0]
      rfl
    · rw [if_pos hpos]
      exact (Nat.max_eq_left hpos).symm
  · exact congrArg Prod.snd hfields

/-- Witness for C3 at a zero-page declaration with maximum 5: one page is
allocated and the maximum is passed through. -/
theorem c3_memory_pages_witness :
    ∃ lm, (Instance.mk [] [LinearMemory.new 1 (some 5)] []).memories[0]? = some lm ∧
      lm.pages = Nat.max (0 % 2 ^ 32) 1 ∧
      lm.maxPages = (some 5).map (· % 2 ^ 32) :=
  c3_memory_pages true exMemZero ⟨[]⟩ [] ⟨[], [LinearMemory.new 1 (some 5)], []⟩ 0
    ⟨0, some 5⟩ rfl rfl

/-- Counterexample to C3 as stated: a declared page count of `2^32`
truncates through the `u32` cast to zero and is then floored to one page,
not to `max(2^32, 1) = 2^32` pages. -/
theorem c3_memory_pages_counterexample :
    ((Instance.new true exMemHuge ⟨[]⟩ []).map (fun i => i.memories.map LinearMemory.pages)) =
      some [1] ∧
    (some [1] : Option (List Nat)) ≠ some [Nat.max (2 ^ 32) 1] := by
  constructor
  · rfl
  · decide

/-- C2 (amended, debug-assertion half): with debug assertions enabled (the
checks are `debug_assert!`, compiled out in release builds), any table or
data initializer whose base is global-relative makes instantiation abort. -/
theorem c2_nonconst_base_aborts (m : Module) (c : Compilation)
    (di : List DataInitializer)
    (h : (∃ init ∈ m.table_elements, init.base.isSome = true) ∨
      (∃ init ∈ di, init.base.isSome = true)) :
    Instance.new true m c di = none := by
  rcases h with htbl | hdat
  · have hts : instantiate_tables true m c m.table_elements = none :=
      applyTableInits_base_some_none htbl
    unfold Instance.new
    rw [hts]
  · unfold Instance.new
    cases hts : instantiate_tables true m c m.table_elements with
    | none => rfl
    | some ts =>
      have hms : instantiate_memories true m di = none :=
        applyDataInits_base_some_none hdat
      rw [hms]

/-- Witness for C2: a module with a global-relative table-initializer base
aborts instantiation in a debug build. -/
theorem c2_nonconst_base_aborts_witness :
    Instance.new true exBaseTbl exCompOne [] = none :=
  c2_nonconst_base_aborts exBaseTbl exCompOne []
    (Or.inl ⟨⟨0, some 0, 0, [0]⟩, by decide, rfl⟩)

/-- Counterexample to C2 as stated: with debug assertions disabled (a
release build), instantiation of a global-relative data initializer does
not abort — the base is ignored and the payload is applied at the
initializer's constant offset field. -/
theorem c2_nonconst_base_aborts_counterexample :
    ((Instance.new false exMemOne ⟨[]⟩ [⟨0, some 0, 0, [7]⟩]).map
      (fun i => i.inspect_memory 0 0 1)) = some (some [7]) := by
  rfl

/-- C4 (amended): after a successful `Instance` construction, a slot written
by a table initializer whose listed function index resolves locally holds
that function's compiled code buffer entry address, provided no later
initializer in the list also covers that slot; and every slot not covered by
any initializer is zero. -/
theorem c4_table_contents (da : Bool) (m : Module) (c : Compilation)
    (di : List DataInitializer) (inst : Instance)
    (h : Instance.new da m c di = some inst) :
    (∀ j init p f, m.table_elements[j]? = some init →
      init.elements[p]? = some f →
      (∀ init2 ∈ m.table_elements.drop (j + 1),
        ¬ coversT init2 init.table_index (init.offset + p)) →
      slotAt inst.tables init.table_index (init.offset + p) = resolveFuncAddr m c f) ∧
    (∀ t s decl, m.tables[t]? = some decl → s < decl.size →
      (∀ init ∈ m.table_elements, ¬ coversT init t s) →
      slotAt inst.tables t s = some 0) := by
  have hts := (Instance.new_eq_some h).1
  unfold instantiate_tables at hts
  constructor
  · intro j init p f hj hp hafter
    exact applyTableInits_lastWriter hts hj hp hafter
  · intro t s decl hd hs hnone
    rw [applyTableInits_slotAt_of_not_covers hts hnone]
    exact slotAt_alloc hd hs

/-- Witness for C4 at spec Scenario B: table `[0, addr(f0), addr(f1), 0]`. -/
theorem c4_table_contents_witness :
    slotAt [[0, 100, 200, 0]] 0 (1 + 0) = resolveFuncAddr exTableB exCompB 0 ∧
    slotAt [[0, 100, 200, 0]] 0 0 = some 0 := by
  have hmain := c4_table_contents true exTableB exCompB []
    ⟨[[0, 100, 200, 0]], [], []⟩ rfl
  exact ⟨hmain.1 0 ⟨0, none, 1, [0, 1]⟩ 0 0 rfl rfl (by decide),
    hmain.2 0 0 ⟨4⟩ rfl (by decide) (by decide)⟩

/-- Counterexample to C4 as stated: with two initializers both writing slot
0 of table 0, the slots of the first initializer (whose element resolves
locally to address 100) do not hold its addresses after construction — the
second initializer overwrote them with 200. -/
theorem c4_table_contents_counterexample :
    ((Instance.new true exTableOverlap exCompB []).map
      (fun i => slotAt i.tables 0 (0 + 0))) = some (some 200) ∧
    resolveFuncAddr exTableOverlap exCompB 0 = some 100 ∧
    ((Instance.new true exTableOverlap exCompB []).map
      (fun i => slotAt i.tables 0 (0 + 0))) ≠ some (some 100) := by
  refine ⟨rfl, rfl, ?_⟩
  decide

/-- C5 (amended): for every data initializer `(m, o, bytes)` with a
constant base and an in-bounds target range, provided no later initializer
in the list covers any byte of `[o, o + len(bytes))` of memory `m`,
`read_memory(m, o, len(bytes))` immediately after `Instance` construction
returns exactly `bytes`. -/
theorem c5_data_roundtrip (da : Bool) (m : Module) (c : Compilation)
    (di : List DataInitializer) (inst : Instance) (j : Nat)
    (init : DataInitializer)
    (h : Instance.new da m c di = some inst)
    (hj : di[j]? = some init)
    (_hbase : init.base = none)
    (hafter : ∀ init2 ∈ di.drop (j + 1), ∀ p, p < init.data.length →
      ¬ covers init2 init.memory_index (init.offset + p)) :
    inst.inspect_memory init.memory_index init.offset init.data.length =
      some init.data := by
  have hm := (Instance.new_eq_some h).2.1
  unfold instantiate_memories at hm
  obtain ⟨mem2, hmem2, hle⟩ := applyDataInits_inbounds hm hj
  unfold Instance.inspect_memory
  simp only [hmem2]
  rw [if_pos hle]
  refine congrArg some ?_
  apply List.ext_getElem (by simp)
  intro n h1 h2
  rw [List.getElem_map, List.getElem_range]
  have hn : n < init.data.length := h2
  have hcov : covers init init.memory_index (init.offset + n) :=
    ⟨rfl, Nat.le_add_right _ _, by omega⟩
  have hbyte := applyDataInits_lastWriter hm hj hcov
    (fun init2 hin => hafter init2 hin n hn)
  unfold byteAt at hbyte
  rw [hmem2] at hbyte
  simp only [Option.map_some'] at hbyte
  rw [Nat.add_sub_cancel_left] at hbyte
  rw [Option.some.inj hbyte]
  rw [List.getD_eq_getElem?_getD, List.getElem?_eq_getElem hn]
  rfl

/-- Witness for C5 at spec Scenario A: a zero-page memory receives
`[1,2,3,4]` at offset 0 and reads it back. -/
theorem c5_data_roundtrip_witness :
    Instance.inspect_memory
      ⟨[], [⟨1, none, writeBytes (fun _ => 0) 0 [1, 2, 3, 4]⟩], []⟩ 0 0 4 =
      some [1, 2, 3, 4] :=
  c5_data_roundtrip true exMemZeroNoMax ⟨[]⟩ [⟨0, none, 0, [1, 2, 3, 4]⟩]
    ⟨[], [⟨1, none, writeBytes (fun _ => 0) 0 [1, 2, 3, 4]⟩], []⟩ 0
    ⟨0, none, 0, [1, 2, 3, 4]⟩ rfl rfl rfl (by decide)

/-- Counterexample to C5 as stated: the first initializer writes `[1, 2]`
at offset 0 with a constant in-bounds base, yet the read after construction
returns `[1, 9]`, because a later initializer overwrote byte 1. -/
theorem c5_data_roundtrip_counterexample :
    ((Instance.new true exMemOne ⟨[]⟩ [⟨0, none, 0, [1, 2]⟩, ⟨0, none, 1, [9]⟩]).map
      (fun i => i.inspect_memory 0 0 2)) = some (some [1, 9]) ∧
    ((Instance.new true exMemOne ⟨[]⟩ [⟨0, none, 0, [1, 2]⟩, ⟨0, none, 1, [9]⟩]).map
      (fun i => i.inspect_memory 0 0 2)) ≠ some (some [1, 2]) := by
  refine ⟨rfl, ?_⟩
  decide

/-- C9 (amended): data initializers are applied in list order — whenever two
data initializers with constant, in-bounds bases cover the same byte of the
same memory, and no initializer after the later of the two also covers that
byte, the byte observed by `read_memory` after construction is that of the
later of the two. -/
theorem c9_later_initializer_wins (da : Bool) (m : Module) (c : Compilation)
    (di : List DataInitializer) (inst : Instance) (i j a : Nat)
    (initI initJ : DataInitializer)
    (h : Instance.new da m c di = some inst)
    (_hij : i < j)
    (_hi : di[i]? = some initI)
    (hj : di[j]? = some initJ)
    (_hbaseI : initI.base = none)
    (_hbaseJ : initJ.base = none)
    (_hcovI : covers initI initJ.memory_index a)
    (hcovJ : covers initJ initJ.memory_index a)
    (hafter : ∀ init2 ∈ di.drop (j + 1), ¬ covers init2 initJ.memory_index a) :
    inst.inspect_memory initJ.memory_index a 1 =
      some [initJ.data.getD (a - initJ.offset) 0] := by
  have hm := (Instance.new_eq_some h).2.1
  unfold instantiate_memories at hm
  obtain ⟨mem2, hmem2, hle⟩ := applyDataInits_inbounds hm hj
  have hbyte := applyDataInits_lastWriter hm hj hcovJ hafter
  unfold byteAt at hbyte
  rw [hmem2] at hbyte
  simp only [Option.map_some'] at hbyte
  unfold Instance.inspect_memory
  simp only [hmem2]
  have hbound : a + 1 ≤ mem2.sizeBytes := by
    have := hcovJ.2.2
    omega
  rw [if_pos hbound]
  refine congrArg some ?_
  show [mem2.bytes (a + 0)] = [initJ.data.getD (a - initJ.offset) 0]
  rw [Nat.add_zero, Option.some.inj hbyte]

/-- Witness for C9: two initializers both writing byte 0 of memory 0; the
later one's byte 6 is what is read back. -/
theorem c9_later_initializer_wins_witness :
    Instance.inspect_memory
      ⟨[], [⟨1, none, writeBytes (writeBytes (fun _ => 0) 0 [5]) 0 [6]⟩], []⟩ 0 0 1 =
      some [6] :=
  c9_later_initializer_wins true exMemOne ⟨[]⟩ [⟨0, none, 0, [5]⟩, ⟨0, none, 0, [6]⟩]
    ⟨[], [⟨1, none, writeBytes (writeBytes (fun _ => 0) 0 [5]) 0 [6]⟩], []⟩ 0 1 0
    ⟨0, none, 0, [5]⟩ ⟨0, none, 0, [6]⟩ rfl (by decide) rfl rfl rfl rfl
    (by decide) (by decide) (by decide)

/-- Counterexample to C9 as stated: three initializers all write byte 0 of
memory 0 with values 1, 2, 3. The pair (first, second) covers overlapping
ranges, so the claim as stated requires the second's byte 2 to be observed,
but the read returns 3. -/
theorem c9_later_initializer_wins_counterexample :
    ((Instance.new true exMemOne ⟨[]⟩
      [⟨0, none, 0, [1]⟩, ⟨0, none, 0, [2]⟩, ⟨0, none, 0, [3]⟩]).map
      (fun i => i.inspect_memory 0 0 1)) = some (some [3]) ∧
    ((Instance.new true exMemOne ⟨[]⟩
      [⟨0, none, 0, [1]⟩, ⟨0, none, 0, [2]⟩, ⟨0, none, 0, [3]⟩]).map
      (fun i => i.inspect_memory 0 0 1)) ≠ some (some [2]) := by
  refine ⟨rfl, ?_⟩
  decide

/-- C1 (amended): for every invocation via `execute_fn` of an export whose
signature has two or more returns, or exactly one return of a non-numeric
kind, `execute_fn` faults fatally (panics) before any native call is
attempted: it performs zero native calls and does not return a recoverable
`Err` value. -/
theorem c1_bad_signature_panics (inst : Instance) (m : Module) (c : Compilation)
    (oracle : NativeOracle) (name : String) (fi si : Nat) (sig : Signature)
    (hlk : m.exports.lookup name = some (Export.Function fi))
    (hsi : m.functions[fi]? = some si)
    (hsig : m.signatures[si]? = some sig)
    (hshape : 2 ≤ sig.returns.length ∨
      ∃ r, sig.returns = [r] ∧ isNumericRet r.value_type = false) :
    ∃ msg, inst.execute_fn m c oracle name = ⟨.panicked msg, 0⟩ := by
  unfold Instance.execute_fn
  simp only [hlk]
  cases hdf : m.defined_func_index fi with
  | none =>
    simp only [hdf]
    exact ⟨"imported start functions not supported yet", rfl⟩
  | some local_idx =>
    simp only [hdf]
    cases hcb : c.functions[local_idx]? with
    | none =>
      simp only [hcb]
      exact ⟨"index out of bounds", rfl⟩
    | some code_buf =>
      simp only [hcb, hsi, hsig]
      rcases hshape with hmulti | ⟨r, hret, hnum⟩
      · cases hcase : sig.returns with
        | nil =>
          rw [hcase] at hmulti
          exact absurd hmulti (by simp)
        | cons r1 tail =>
          cases tail with
          | nil =>
            rw [hcase] at hmulti
            exact absurd hmulti (by simp)
          | cons r2 rest =>
            simp only [hcase]
            exact ⟨"Only one-returnf functions are supported for now", rfl⟩
      · simp only [hret]
        cases hv : r.value_type with
        | I32 => simp [hv, isNumericRet] at hnum
        | I64 => simp [hv, isNumericRet] at hnum
        | F32 => simp [hv, isNumericRet] at hnum
        | F64 => simp [hv, isNumericRet] at hnum
        | I8 =>
          simp only [hv]
          exact ⟨"Invalid signature", rfl⟩
        | I16 =>
          simp only [hv]
          exact ⟨"Invalid signature", rfl⟩
        | B1 =>
          simp only [hv]
          exact ⟨"Invalid signature", rfl⟩

/-- Witness for C1: invoking the export "g" whose single return is the
non-numeric type `B1` panics with zero native calls. -/
theorem c1_bad_signature_panics_witness :
    ∃ msg, (Instance.mk [] [] []).execute_fn exNonNumRet exCompOne oracle0 "g" =
      ⟨.panicked msg, 0⟩ :=
  c1_bad_signature_panics ⟨[], [], []⟩ exNonNumRet exCompOne oracle0 "g" 0 0
    ⟨[], [⟨.B1⟩]⟩ rfl rfl rfl (Or.inr ⟨⟨.B1⟩, rfl, rfl⟩)

/-- Counterexample to C1 as stated: invoking the export "f", whose signature
has two returns, makes `execute_fn` panic — it performs zero native calls
but does not produce the recoverable `Err` case. -/
theorem c1_bad_signature_panics_counterexample :
    (Instance.mk [] [] []).execute_fn exMultiRet exCompB oracle0 "f" =
      ⟨.panicked "Only one-returnf functions are supported for now", 0⟩ ∧
    ((Instance.mk [] [] []).execute_fn exMultiRet exCompB oracle0 "f").outcome.isErr =
      false := by
  refine ⟨rfl, ?_⟩
  rfl

end Wasmer
